import Mathlib

/-!
# tap-sql: a shallow embedding of the query planner, the connection pool and the encoders

Source files embedded here: `connect.go`, `driver.go`, `encoders.go` and the part of
`cmd/tap-sql-cli/main.go` that stores the encoder's result as resume state.

Go values of type `interface{}` are the inductive type `Val`; a Go `map[string]interface{}`
is an association list with pairwise distinct keys (`GoMap`), a possibly-nil map is an
`Option GoMap`.  The order of the list stands for the (unspecified) order in which `range`
visits the entries.
-/

namespace TapSQL

/-! ## Go values and maps -/

/-- A Go value held in an `interface{}`: what `database/sql` delivers for a column and what a
YAML document delivers for a parameter.  `int` covers the signed integer kinds (`int64` from the
driver); `bytes b` is a `[]byte` holding the UTF-8 text `b`; `other json text` is any further
value `encoding/json` can write (a finite `float64`, a `time.Time`), carried as its
`encoding/json` rendering and its `%v` rendering; `unsupported err text` is a value
`encoding/json` fails on (a `float64` NaN or infinity, a `time.Time` with a year out of range,
a YAML mapping with keys that are no strings), carried as the error it reports and its `%v`
rendering. -/
inductive Val where
  | null
  | int (i : Int)
  | str (s : String)
  | bool (b : Bool)
  | bytes (b : String)
  | other (json : String) (text : String)
  | unsupported (err : String) (text : String)
deriving DecidableEq, Repr

/-- The entries of a `map[string]interface{}`. -/
abbrev GoMap := List (String × Val)

/-- The keys of a map, in visiting order. -/
def keys (m : GoMap) : List String := m.map Prod.fst

/-- The Go expression `m[k]` with the comma-ok result: the value stored under `k`, if any. -/
def mapGet : GoMap → String → Option Val
  | [], _ => none
  | (k, v) :: t, x => if k = x then some v else mapGet t x

/-- The Go statement `m[k] = v`. -/
def mapSet (k : String) (v : Val) : GoMap → GoMap
  | [] => [(k, v)]
  | (k0, v0) :: t => if k0 = k then (k, v) :: t else (k0, v0) :: mapSet k v t

/-- The entries `range` visits: none for a nil map. -/
def entries : Option GoMap → GoMap
  | none => []
  | some m => m

/-! ## connect.go: the query planner -/

/-- Go `getMinMaxRange`. -/
def getMinMaxRange (params : Option GoMap) : Bool :=
  match params with
  | none => false
  | some m =>
    if m.length = 0 then false
    else if (mapGet m "max").isNone then false
    else if (mapGet m "min").isNone then false
    else true

/-- Go `getOffset`. -/
def getOffset (params : Option GoMap) : Bool :=
  match params with
  | none => false
  | some m =>
    if m.length = 0 then false
    else if (mapGet m "offset").isNone then false
    else true

/-- Go `getTimestamp`. -/
def getTimestamp (params : Option GoMap) : Bool :=
  match params with
  | none => false
  | some m =>
    if m.length = 0 then false
    else if (mapGet m "timestamp").isNone then false
    else true

/-- The four cases of the `switch` in `ExecuteQuery`. -/
inductive Mode where
  | range
  | offset
  | timestamp
  | fullScan
deriving DecidableEq, Repr

/-- The case the `switch` of `ExecuteQuery` takes: the first guard that holds, in source order. -/
def selectMode (params : Option GoMap) : Mode :=
  if getMinMaxRange params then Mode.range
  else if getOffset params then Mode.offset
  else if getTimestamp params then Mode.timestamp
  else Mode.fullScan

/-- The whitespace the raw string literals of `ExecuteQuery` start with: a line break and three
tabs. -/
def leadingSpace : String := "\n\t\t\t"

/-- The `fmt.Sprintf` call of each case of the `switch`; `%s` of a string is the string. -/
def sqlQuery (mode : Mode) (tblName syncCol : String) : String :=
  match mode with
  | Mode.range =>
    leadingSpace ++ "SELECT * FROM \"" ++ tblName ++ "\" WHERE \"" ++ syncCol ++
      "\" >= :min AND \"" ++ syncCol ++ "\" < :max ORDER BY \"" ++ syncCol ++ "\" ASC"
  | Mode.offset =>
    leadingSpace ++ "SELECT * FROM \"" ++ tblName ++ "\" WHERE \"" ++ syncCol ++
      "\" > :offset ORDER BY \"" ++ syncCol ++ "\" ASC"
  | Mode.timestamp =>
    leadingSpace ++ "SELECT * FROM \"" ++ tblName ++ "\" WHERE \"" ++ syncCol ++
      "\" = :timestamp ORDER BY \"" ++ syncCol ++ "\" ASC"
  | Mode.fullScan =>
    leadingSpace ++ "SELECT * FROM \"" ++ tblName ++ "\" ORDER BY \"" ++ syncCol ++ "\" ASC"

/-- What `ExecuteQuery` hands to the database handle: `db.NamedQuery(sqlQuery, params)` with
the whole parameter mapping as named arguments, or `db.Queryx(sqlQuery)` with none. -/
inductive DBCall where
  | namedQuery (text : String) (args : Option GoMap)
  | queryx (text : String)
deriving DecidableEq, Repr

/-- The query text of a call. -/
def DBCall.text : DBCall → String
  | DBCall.namedQuery t _ => t
  | DBCall.queryx t => t

/-- The named arguments of a call: none for `Queryx`. -/
def DBCall.boundArgs : DBCall → Option (Option GoMap)
  | DBCall.namedQuery _ a => some a
  | DBCall.queryx _ => none

/-- The database call the `switch` of `ExecuteQuery` makes. -/
def issuedCall (tblName syncCol : String) (params : Option GoMap) : DBCall :=
  match selectMode params with
  | Mode.fullScan => DBCall.queryx (sqlQuery Mode.fullScan tblName syncCol)
  | mode => DBCall.namedQuery (sqlQuery mode tblName syncCol) params

/-- Go `hasDuplicateHeaders`: the loop, with `headers` the names seen so far. -/
def hasDuplicateHeadersLoop (headers : List String) : List String → Bool
  | [] => false
  | r :: rest =>
    if r ∈ headers then true else hasDuplicateHeadersLoop (r :: headers) rest

/-- Go `hasDuplicateHeaders`. -/
def hasDuplicateHeaders (col : List String) : Bool :=
  hasDuplicateHeadersLoop [] col

/-- The state behind a `*sqlx.Rows`: what `Columns()` answers, and the rows not read yet, each
either the error `MapScan` meets on it or its values in column order. -/
structure Rows where
  columns : Except String (List String)
  pending : List (Except String (List Val))

/-- Go `SQLRow`. -/
structure SQLRow where
  rows : Rows

/-- Go `ExecuteQuery`; the handle `db` is what it answers to a call. -/
def ExecuteQuery (db : DBCall → Except String Rows) (tblName syncCol : String)
    (params : Option GoMap) : Except String SQLRow :=
  match db (issuedCall tblName syncCol params) with
  | Except.error err => Except.error err
  | Except.ok rows =>
    match rows.columns with
    | Except.error err => Except.error err
    | Except.ok cols =>
      if hasDuplicateHeaders cols then Except.error "Has duplicate headers"
      else Except.ok (SQLRow.mk rows)

/-! ## encoding/json and fmt, as far as the program uses them -/

/-- A hexadecimal digit, lower case. -/
def hexDigit (n : Nat) : Char :=
  "0123456789abcdef".toList.getD n '0'

/-- How `encoding/json` writes one character of a string (HTML escaping on, as `Marshal` and
`Encoder` have it by default). -/
def jsonEscapeChar (c : Char) : String :=
  if c.toNat = 34 then "\\\""
  else if c.toNat = 92 then "\\\\"
  else if c.toNat = 10 then "\\n"
  else if c.toNat = 13 then "\\r"
  else if c.toNat = 9 then "\\t"
  else if c.toNat < 32 ∨ c.toNat = 60 ∨ c.toNat = 62 ∨ c.toNat = 38 then
    "\\u00" ++ String.mk [hexDigit (c.toNat / 16), hexDigit (c.toNat % 16)]
  else if c.toNat = 8232 then "\\u2028"
  else if c.toNat = 8233 then "\\u2029"
  else String.mk [c]

/-- A JSON string literal. -/
def jsonString (s : String) : String :=
  "\"" ++ String.join (s.toList.map jsonEscapeChar) ++ "\""

/-- The bytes of a text in UTF-8. -/
def utf8Bytes (s : String) : List Nat :=
  s.toList.flatMap fun c => (String.utf8EncodeChar c).map UInt8.toNat

/-- The base64 alphabet of `encoding/base64.StdEncoding`. -/
def base64Digit (n : Nat) : Char :=
  "ABCDEFGHIJKLMNOPQRSTUVWXYZabcdefghijklmnopqrstuvwxyz0123456789+/".toList.getD n '='

/-- Standard base64 with padding: how `encoding/json` writes a `[]byte`. -/
def base64 : List Nat → List Char
  | [] => []
  | [a] => [base64Digit (a / 4), base64Digit (a % 4 * 16), '=', '=']
  | [a, b] =>
    [base64Digit (a / 4), base64Digit (a % 4 * 16 + b / 16), base64Digit (b % 16 * 4), '=']
  | a :: b :: c :: rest =>
    base64Digit (a / 4) :: base64Digit (a % 4 * 16 + b / 16) ::
      base64Digit (b % 16 * 4 + c / 64) :: base64Digit (c % 64) :: base64 rest

/-- How `encoding/json` writes a value, or the error it reports for it. -/
def jsonValue : Val → Except String String
  | Val.null => Except.ok "null"
  | Val.int i => Except.ok (toString i)
  | Val.str s => Except.ok (jsonString s)
  | Val.bool b => Except.ok (if b then "true" else "false")
  | Val.bytes b => Except.ok ("\"" ++ String.mk (base64 (utf8Bytes b)) ++ "\"")
  | Val.other json _ => Except.ok json
  | Val.unsupported err _ => Except.error err

/-- The order `encoding/json` sorts the keys of a map in: byte-wise, which for UTF-8 is the
lexicographic order of the code points. -/
def keyLe (a b : String) : Prop := a.toList ≤ b.toList

instance keyLeDecidable : DecidableRel keyLe :=
  fun a b => inferInstanceAs (Decidable (a.toList ≤ b.toList))

instance keyLeTotal : IsTotal String keyLe :=
  ⟨fun a b => le_total a.toList b.toList⟩

instance keyLeTrans : IsTrans String keyLe :=
  ⟨fun a _ c h1 h2 => (le_trans h1 h2 : a.toList ≤ c.toList)⟩

instance keyLeAntisymm : IsAntisymm String keyLe :=
  ⟨fun a b h1 h2 => String.ext (le_antisymm h1 h2 : a.toList = b.toList)⟩

/-- The keys of a map, sorted. -/
def sortedKeys (m : GoMap) : List String :=
  (keys m).insertionSort keyLe

/-- The members of a JSON object for the given keys in turn, each the key and the value stored
under it; the first value that cannot be written ends the encoding with its error. -/
def jsonMembers (m : GoMap) : List String → Except String (List String)
  | [] => Except.ok []
  | k :: ks =>
    match jsonValue ((mapGet m k).getD Val.null) with
    | Except.error err => Except.error err
    | Except.ok v =>
      match jsonMembers m ks with
      | Except.error err => Except.error err
      | Except.ok rest => Except.ok ((jsonString k ++ ":" ++ v) :: rest)

/-- What `json.Marshal` yields for a `map[string]interface{}`: the members in sorted key order
(`null` for a nil map), or the error of the first value it cannot write. -/
def jsonMarshal : Option GoMap → Except String String
  | none => Except.ok "null"
  | some m =>
    match jsonMembers m (sortedKeys m) with
    | Except.error err => Except.error err
    | Except.ok members => Except.ok ("\x7b" ++ ",".intercalate members ++ "\x7d")

/-- How `fmt` writes a value under the verb `%v`. -/
def fmtV : Val → String
  | Val.null => "<nil>"
  | Val.int i => toString i
  | Val.str s => s
  | Val.bool b => if b then "true" else "false"
  | Val.bytes b => "[" ++ " ".intercalate ((utf8Bytes b).map toString) ++ "]"
  | Val.other _ text => text
  | Val.unsupported _ text => text

/-! ## driver.go -/

/-- Go `ValidateDriver`, a map from common driver names to registered drivers. -/
def ValidateDriver (name : String) : Option String :=
  if name = "postgresql" then some "postgres"
  else if name = "postgres" then some "postgres"
  else none

/-- The converter `sqlDrivers` holds for "postgres": one `key=value` per entry `range` visits,
joined by a blank. -/
def postgresConnString (params : GoMap) : String :=
  " ".intercalate (params.map fun e => e.1 ++ "=" ++ fmtV e.2)

/-- Go `sqlDrivers`. -/
def sqlDrivers (driver : String) : Option (GoMap → String) :=
  if driver = "postgres" then some postgresConnString else none

/-- Go `convertBytesToString`: every entry holding a `[]byte` is assigned the string of it. -/
def convertBytesToString (m : GoMap) : GoMap :=
  m.map fun e =>
    match e.2 with
    | Val.bytes b => (e.1, Val.str b)
    | _ => e

/-- Go `cleanParams`: a fresh map, filled while `range` visits the entries of `params`. -/
def cleanParams (params : Option GoMap) : GoMap :=
  (entries params).foldl
    (fun acc e => if e.2 = Val.str "" then acc else mapSet e.1 e.2 acc) []

/-! ## The output sink and the row cursor -/

/-- The `io.Writer` the encoders write to: the bytes it has taken, and how many calls of `Write`
it will still accept (`none`: every call).  A refused call takes no bytes. -/
structure Sink where
  written : String
  credit : Option Nat
deriving DecidableEq, Repr

/-- One call of `w.Write(p)`. -/
def Sink.Write (w : Sink) (p : String) : Except String Sink :=
  match w.credit with
  | none => Except.ok (Sink.mk (w.written ++ p) none)
  | some 0 => Except.error "write failed"
  | some (n + 1) => Except.ok (Sink.mk (w.written ++ p) (some n))

/-- How a call of an encoder ends: it returns `&lastRecord, nil`, it returns `nil, err`, or it
panics. -/
inductive Outcome where
  | value (lastRecord : Int)
  | error (err : String)
  | panicked
deriving DecidableEq, Repr

/-- The loop at the end of `sqlx.MapScan`: `dest[column] = values[i]` for each column in turn;
`values` has one slot per column, nil where the row has none. -/
def mapScanInto : List String → List Val → GoMap → GoMap
  | [], _, dest => dest
  | c :: cs, vals, dest => mapScanInto cs vals.tail (mapSet c (vals.headD Val.null) dest)

/-- Method `MapScan` of `sqlx.Rows` on the current row. -/
def Rows.MapScan (rows : Rows) (row : Except String (List Val)) (dest : GoMap) :
    Except String GoMap :=
  match rows.columns with
  | Except.error err => Except.error err
  | Except.ok cols =>
    match row with
    | Except.error err => Except.error err
    | Except.ok vals => Except.ok (mapScanInto cols vals dest)

/-- Go `(*SQLRow).Scan` on the current row. -/
def SQLRow.Scan (rc : SQLRow) (row : Except String (List Val)) (r : GoMap) :
    Except String GoMap :=
  match rc.rows.MapScan row r with
  | Except.error err => Except.error err
  | Except.ok r1 => Except.ok (convertBytesToString r1)

/-- Method `Encode` of `json.Encoder`: the record is marshalled first, and an error of that
ends the call with nothing written; else the JSON text and a line break go out in one
`Write`. -/
def Encode (w : Sink) (record : GoMap) : Except String Sink :=
  match jsonMarshal (some record) with
  | Except.error err => Except.error err
  | Except.ok b => w.Write (b ++ "\n")

/-- The Go expression `int(reflect.ValueOf(x).Int())` on `x = record[syncCol]`: the integer held
(`int` has 64 bits, as `int64` has), `none` where `Int` panics, which it does on every value that
is not of a signed integer kind, the nil interface of an absent key included. -/
def reflectInt : Option Val → Option Int
  | some (Val.int i) => some i
  | _ => none

/-! ## encoders.go -/

/-- The `for rc.Next()` loop of `EncodeJSONLD`, on the rows not read yet. -/
def encodeJSONLDLoop (rc : SQLRow) (syncCol timestamp : String) :
    List (Except String (List Val)) → Sink → GoMap → Int → Sink × Outcome
  | [], w, _, lastRecord => (w, Outcome.value lastRecord)
  | row :: rest, w, record, _ =>
    match rc.Scan row record with
    | Except.error err => (w, Outcome.error err)
    | Except.ok scanned =>
      let record := mapSet "Process_Date" (Val.str timestamp) scanned
      match Encode w record with
      | Except.error err => (w, Outcome.error err)
      | Except.ok w1 =>
        match reflectInt (mapGet record syncCol) with
        | none => (w1, Outcome.panicked)
        | some i => encodeJSONLDLoop rc syncCol timestamp rest w1 record i

/-- Go `EncodeJSONLD`. -/
def EncodeJSONLD (w : Sink) (rc : SQLRow) (syncCol timestamp : String) : Sink × Outcome :=
  encodeJSONLDLoop rc syncCol timestamp rc.rows.pending w [] 0

/-- The `for rc.Next()` loop of `EncodeJSON` and what follows it; `c` counts the rows begun. -/
def encodeJSONLoop (rc : SQLRow) (syncCol timestamp : String) :
    List (Except String (List Val)) → Sink → GoMap → Int → Nat → Sink × Outcome
  | [], w, _, lastRecord, _ =>
    match w.Write "]" with
    | Except.error err => (w, Outcome.error err)
    | Except.ok w1 => (w1, Outcome.value lastRecord)
  | row :: rest, w, record, _, c =>
    match (if c > 0 then w.Write ",\n" else Except.ok w) with
    | Except.error err => (w, Outcome.error err)
    | Except.ok w0 =>
      match rc.Scan row record with
      | Except.error err => (w0, Outcome.error err)
      | Except.ok scanned =>
        let record := mapSet "Process_Date" (Val.str timestamp) scanned
        match Encode w0 record with
        | Except.error err => (w0, Outcome.error err)
        | Except.ok w1 =>
          match reflectInt (mapGet record syncCol) with
          | none => (w1, Outcome.panicked)
          | some i => encodeJSONLoop rc syncCol timestamp rest w1 record i (c + 1)

/-- Go `EncodeJSON`. -/
def EncodeJSON (w : Sink) (rc : SQLRow) (syncCol timestamp : String) : Sink × Outcome :=
  match w.Write "[" with
  | Except.error err => (w, Outcome.error err)
  | Except.ok w1 => encodeJSONLoop rc syncCol timestamp rc.rows.pending w1 [] 0 0

/-! ## cmd/tap-sql-cli/main.go, lines 109 to 119 -/

/-- The `switch encType` of `main`: `EncodeJSON` for "json", `EncodeJSONLD` otherwise. -/
def cliEncode (encType : String) (w : Sink) (row : SQLRow) (syncCol timeStamp : String) :
    Sink × Outcome :=
  if encType = "json" then EncodeJSON w row syncCol timeStamp
  else EncodeJSONLD w row syncCol timeStamp

/-- The statement `statePay.LastRecord = *lastRecord` of `main`: the state to persist, `none`
where `main` has ended before it (`log.Fatalf` on an error, or the panic). -/
def cliNewState (_statePay : Int) (result : Outcome) : Option Int :=
  match result with
  | Outcome.value lastRecord => some lastRecord
  | _ => none

/-! ## connect.go: the connection cache -/

/-- The state behind a `*sqlx.DB`. -/
structure Conn where
  driverName : String
  dataSourceName : String
  maxIdleConns : Option Nat
  connMaxLifetime : Option Nat
  closed : Bool
deriving DecidableEq, Repr

/-- The package-level state: every connection opened so far (a `*sqlx.DB` is its index), and
the variable `connMap`. -/
structure Pool where
  conns : List Conn
  connMap : List (String × Nat)
deriving DecidableEq, Repr

/-- Go `maxIdleConns`. -/
def maxIdleConns : Nat := 10

/-- Go `maxConnMaxLifetime`, ten minutes in nanoseconds. -/
def maxConnMaxLifetime : Nat := 10 * (60 * 1000000000)

/-- The Go expression `connMap[key]` with the comma-ok result. -/
def connMapGet : List (String × Nat) → String → Option Nat
  | [], _ => none
  | (k, db) :: t, x => if k = x then some db else connMapGet t x

/-- The Go statement `connMap[key] = db`. -/
def connMapSet (k : String) (db : Nat) : List (String × Nat) → List (String × Nat)
  | [] => [(k, db)]
  | (k0, db0) :: t => if k0 = k then (k, db) :: t else (k0, db0) :: connMapSet k db t

/-- Go `Connect`; `dial driver dsn` is what `sqlx.Connect` meets on the network (`none`:
success), `visit` the order in which `range` visits a map in the converter.  A registered name
without a converter would make Go call a nil function; `ValidateDriver` yields no such name,
so that branch is never taken. -/
def Connect (dial : String → String → Option String) (visit : GoMap → GoMap) (st : Pool)
    (driver : String) (params : Option GoMap) : Pool × Except String Nat :=
  match ValidateDriver driver with
  | none => (st, Except.error "Unknown driver")
  | some driver1 =>
    match sqlDrivers driver1 with
    | none => (st, Except.error "nil converter")
    | some conConv =>
      let dsn := conConv (visit (cleanParams params))
      match dial driver1 dsn with
      | some err => (st, Except.error err)
      | none =>
        (Pool.mk (st.conns ++ [Conn.mk driver1 dsn none none false]) st.connMap,
          Except.ok st.conns.length)

/-- The methods `SetMaxIdleConns` and `SetConnMaxLifetime` on the handle `db`. -/
def setLimits (db : Nat) : List Conn → List Conn
  | [] => []
  | c :: cs =>
    match db with
    | 0 => Conn.mk c.driverName c.dataSourceName (some maxIdleConns) (some maxConnMaxLifetime)
        c.closed :: cs
    | n + 1 => c :: setLimits n cs

/-- The composite key of `ConnectionPool`: `driver + string(connKey)`, where `connKey` is
`json.Marshal(conParams)`, the parameters as the caller passed them; the error of
`json.Marshal` where it fails. -/
def cacheKey (driver : String) (conParams : Option GoMap) : Except String String :=
  match jsonMarshal conParams with
  | Except.error err => Except.error err
  | Except.ok connKey => Except.ok (driver ++ connKey)

/-- Go `ConnectionPool`. -/
def ConnectionPool (dial : String → String → Option String) (visit : GoMap → GoMap) (st : Pool)
    (driver : String) (conParams : Option GoMap) : Pool × Except String Nat :=
  match cacheKey driver conParams with
  | Except.error err => (st, Except.error err)
  | Except.ok key =>
    match connMapGet st.connMap key with
    | some db => (st, Except.ok db)
    | none =>
      match Connect dial visit st driver conParams with
      | (st1, Except.error err) => (st1, Except.error err)
      | (st1, Except.ok db) =>
        (Pool.mk (setLimits db st1.conns) (connMapSet key db st1.connMap), Except.ok db)

/-- The method `Close` on the handle `db`. -/
def closeConn (db : Nat) : List Conn → List Conn
  | [] => []
  | c :: cs =>
    match db with
    | 0 => Conn.mk c.driverName c.dataSourceName c.maxIdleConns c.connMaxLifetime true :: cs
    | n + 1 => c :: closeConn n cs

/-- Go `Shutdown`: `db.Close()` for every entry of `connMap`; `connMap` itself is not
assigned. -/
def Shutdown (st : Pool) : Pool :=
  Pool.mk (st.connMap.foldl (fun conns e => closeConn e.2 conns) st.conns) st.connMap

/-- Whether `Close` has been called on the connection at index `db`. -/
def closedAt : List Conn → Nat → Bool
  | [], _ => false
  | c :: _, 0 => c.closed
  | _ :: cs, n + 1 => closedAt cs n

/-- Whether the handle `db` has been closed. -/
def isClosed (st : Pool) (db : Nat) : Bool :=
  closedAt st.conns db

/-- The `float64` NaN as a column value, with the `UnsupportedValueError` of `encoding/json`
for it. -/
def floatNaN : Val := Val.unsupported "json: unsupported value: NaN" "NaN"

/-- The `float64` positive infinity as a column value. -/
def floatPosInf : Val := Val.unsupported "json: unsupported value: +Inf" "+Inf"

/-! ## Notions of the specification -/

/-- The spec's notion of presence: the mapping has an entry with key `k`. -/
def hasKey (params : Option GoMap) (k : String) : Prop :=
  ∃ v, (k, v) ∈ entries params

/-- The same mapping with other values: every entry keeps its key and gets the value `f` gives
for it. -/
def reValue (f : String → Val → Val) : Option GoMap → Option GoMap
  | none => none
  | some m => some (m.map fun e => (e.1, f e.1 e.2))

/-- An identifier between double quotes. -/
def quoted (name : String) : String := "\"" ++ name ++ "\""

/-- The query templates as the specification words them, table and column as double-quoted
identifiers. -/
def specTemplate (mode : Mode) (t c : String) : String :=
  match mode with
  | Mode.range =>
    "SELECT * FROM " ++ quoted t ++ " WHERE " ++ quoted c ++ " >= :min AND " ++ quoted c ++
      " < :max ORDER BY " ++ quoted c ++ " ASC"
  | Mode.offset =>
    "SELECT * FROM " ++ quoted t ++ " WHERE " ++ quoted c ++ " > :offset ORDER BY " ++
      quoted c ++ " ASC"
  | Mode.timestamp =>
    "SELECT * FROM " ++ quoted t ++ " WHERE " ++ quoted c ++ " = :timestamp ORDER BY " ++
      quoted c ++ " ASC"
  | Mode.fullScan =>
    "SELECT * FROM " ++ quoted t ++ " ORDER BY " ++ quoted c ++ " ASC"

/-- The named arguments the specification gives each mode: the parameter mapping, and none in
full-scan mode. -/
def specArgs (mode : Mode) (p : Option GoMap) : Option (Option GoMap) :=
  match mode with
  | Mode.fullScan => none
  | _ => some p

/-- What `convertBytesToString` makes of a value. -/
def convVal : Val → Val
  | Val.bytes b => Val.str b
  | v => v

/-- A row as a record keyed by column name: what `MapScan` makes of it in a fresh map. -/
def rowOf (cols : List String) (vals : List Val) : GoMap :=
  mapScanInto cols vals []

/-- The row with its byte values as text and the timestamp added under "Process_Date": the
record an encoder serializes for it. -/
def emitted (cols : List String) (timestamp : String) (vals : List Val) : GoMap :=
  mapSet "Process_Date" (Val.str timestamp) (convertBytesToString (rowOf cols vals))

/-- The serialization of a row: what `Encode` writes for it, the JSON object and a line
break, or the error of marshalling it. -/
def serialized (cols : List String) (timestamp : String) (vals : List Val) :
    Except String String :=
  match jsonMarshal (some (emitted cols timestamp vals)) with
  | Except.error err => Except.error err
  | Except.ok b => Except.ok (b ++ "\n")

/-- A cursor over the given rows, none of which meets a scan error. -/
def cursor (cols : List String) (rows : List (List Val)) : SQLRow :=
  SQLRow.mk (Rows.mk (Except.ok cols) (rows.map Except.ok))

/-- A sink takes `n` further calls of `Write`. -/
def Sink.accepts (w : Sink) (n : Nat) : Prop :=
  match w.credit with
  | none => True
  | some k => n ≤ k

/-- What the loops keep true of `record`: its keys are distinct and are column names or the
annotation key. -/
def RecordInv (cols : List String) (record : GoMap) : Prop :=
  (keys record).Nodup ∧ ∀ k, k ∉ cols → k ≠ "Process_Date" → mapGet record k = none

/-- The record after `Scan` and the assignment of the timestamp. -/
def nextRecord (cols : List String) (timestamp : String) (vals : List Val) (record : GoMap) :
    GoMap :=
  mapSet "Process_Date" (Val.str timestamp) (convertBytesToString (mapScanInto cols vals record))

/-- The integer an encoder reads for a row: `reflectInt` of the sync column of the record it
serializes, `none` where that panics. -/
def syncRead (cols : List String) (timestamp syncCol : String) (vals : List Val) : Option Int :=
  reflectInt (mapGet (emitted cols timestamp vals) syncCol)

/-- The running `lastRecord` after the given rows, from the start value `init`. -/
def lastAfter (cols : List String) (timestamp syncCol : String) (rows : List (List Val))
    (init : Int) : Int :=
  rows.foldl (fun acc r => (syncRead cols timestamp syncCol r).getD acc) init

/-- What the loop of `EncodeJSON` writes for the given rows when `c` rows have been begun
before them: each row's line, behind the separator unless it is the first row. -/
def arrayBody (line : List Val → String) : Nat → List (List Val) → String
  | _, [] => ""
  | c, r :: rs =>
    (if c > 0 then ",\n" else "") ++ line r ++ arrayBody line (c + 1) rs

/-! # Theorems -/

/-! ## Mode selection -/

theorem mapGet_isSome_iff (m : GoMap) (k : String) :
    (mapGet m k).isSome = true ↔ ∃ v, (k, v) ∈ m := by
  induction m with
  | nil => simp [mapGet]
  | cons e t ih =>
    obtain ⟨k0, v0⟩ := e
    by_cases h : k0 = k
    · subst h
      simp [mapGet]
    · have h2 : ¬ k = k0 := fun e => h e.symm
      simp [mapGet, h, h2, ih]

theorem mapGet_isNone_iff (m : GoMap) (k : String) :
    (mapGet m k).isNone = true ↔ ¬ ∃ v, (k, v) ∈ m := by
  rw [← mapGet_isSome_iff]
  cases mapGet m k <;> simp

theorem getMinMaxRange_iff (p : Option GoMap) :
    getMinMaxRange p = true ↔ hasKey p "min" ∧ hasKey p "max" := by
  cases p with
  | none => simp [getMinMaxRange, hasKey, entries]
  | some m =>
    show (if m.length = 0 then false else if (mapGet m "max").isNone then false
      else if (mapGet m "min").isNone then false else true) = true ↔
      (∃ v, ("min", v) ∈ m) ∧ (∃ v, ("max", v) ∈ m)
    rw [← mapGet_isSome_iff, ← mapGet_isSome_iff]
    cases m with
    | nil => simp [mapGet]
    | cons e t =>
      cases mapGet (e :: t) "min" <;> cases mapGet (e :: t) "max" <;> simp

theorem presence_guard (p : Option GoMap) (k : String) :
    (match p with
      | none => false
      | some m => if m.length = 0 then false else if (mapGet m k).isNone then false else true)
      = true ↔ hasKey p k := by
  cases p with
  | none => simp [hasKey, entries]
  | some m =>
    show (if m.length = 0 then false else if (mapGet m k).isNone then false else true) = true ↔
      ∃ v, (k, v) ∈ m
    rw [← mapGet_isSome_iff]
    cases m with
    | nil => simp [mapGet]
    | cons e t => cases mapGet (e :: t) k <;> simp

theorem getOffset_iff (p : Option GoMap) : getOffset p = true ↔ hasKey p "offset" :=
  presence_guard p "offset"

theorem getTimestamp_iff (p : Option GoMap) : getTimestamp p = true ↔ hasKey p "timestamp" :=
  presence_guard p "timestamp"

/-- C1: the mode `ExecuteQuery` selects depends on key presence only, in strict priority order:
range when both "min" and "max" are present, else offset when "offset" is present, else
timestamp when "timestamp" is present, else full scan; this holds for the nil and the empty
mapping too, and the four conditions exclude one another. -/
theorem selectMode_by_presence (p : Option GoMap) :
    (selectMode p = Mode.range ↔ hasKey p "min" ∧ hasKey p "max") ∧
    (selectMode p = Mode.offset ↔
      ¬ (hasKey p "min" ∧ hasKey p "max") ∧ hasKey p "offset") ∧
    (selectMode p = Mode.timestamp ↔
      ¬ (hasKey p "min" ∧ hasKey p "max") ∧ ¬ hasKey p "offset" ∧ hasKey p "timestamp") ∧
    (selectMode p = Mode.fullScan ↔
      ¬ (hasKey p "min" ∧ hasKey p "max") ∧ ¬ hasKey p "offset" ∧
        ¬ hasKey p "timestamp") := by
  rw [← getMinMaxRange_iff, ← getOffset_iff, ← getTimestamp_iff]
  unfold selectMode
  cases getMinMaxRange p <;> cases getOffset p <;> cases getTimestamp p <;> simp


/-! ## The query text -/

theorem mapGet_reValue (f : String → Val → Val) (m : GoMap) (k : String) :
    mapGet (m.map fun e => (e.1, f e.1 e.2)) k = (mapGet m k).map (f k) := by
  induction m with
  | nil => rfl
  | cons e t ih =>
    obtain ⟨k0, v0⟩ := e
    by_cases h : k0 = k
    · subst h
      simp [mapGet]
    · simp [mapGet, h, ih]

theorem selectMode_reValue (f : String → Val → Val) (p : Option GoMap) :
    selectMode (reValue f p) = selectMode p := by
  cases p with
  | none => rfl
  | some m =>
    simp [selectMode, getMinMaxRange, getOffset, getTimestamp, reValue, mapGet_reValue]

theorem issuedCall_text (t c : String) (p : Option GoMap) :
    (issuedCall t c p).text = sqlQuery (selectMode p) t c := by
  unfold issuedCall
  cases selectMode p <;> rfl

theorem sqlQuery_template (mode : Mode) (t c : String) :
    sqlQuery mode t c = leadingSpace ++ specTemplate mode t c := by
  cases mode <;>
    (apply String.ext
     simp only [sqlQuery, specTemplate, quoted, String.data_append, List.append_assoc]
     rfl)

theorem specTemplate_order (mode : Mode) (t c : String) :
    ∃ pre, specTemplate mode t c = pre ++ " ORDER BY " ++ quoted c ++ " ASC" := by
  cases mode
  · exact ⟨"SELECT * FROM " ++ quoted t ++ " WHERE " ++ quoted c ++ " >= :min AND " ++
      quoted c ++ " < :max", by simp [specTemplate, String.append_assoc]⟩
  · exact ⟨"SELECT * FROM " ++ quoted t ++ " WHERE " ++ quoted c ++ " > :offset",
      by simp [specTemplate, String.append_assoc]⟩
  · exact ⟨"SELECT * FROM " ++ quoted t ++ " WHERE " ++ quoted c ++ " = :timestamp",
      by simp [specTemplate, String.append_assoc]⟩
  · exact ⟨"SELECT * FROM " ++ quoted t, by simp [specTemplate, String.append_assoc]⟩

/-- C2: the query text `ExecuteQuery` issues is, after its leading whitespace, the template of
the selected mode with table and sync column as double-quoted identifiers; the named arguments
are the parameter mapping, and none in full-scan mode; in every mode the text ends with the
ascending ORDER BY on the sync column; and the text is the same whatever values the parameters
carry. -/
theorem issuedCall_template (t c : String) (p : Option GoMap) :
    (issuedCall t c p).text = leadingSpace ++ specTemplate (selectMode p) t c ∧
    (issuedCall t c p).boundArgs = specArgs (selectMode p) p ∧
    (∃ pre, (issuedCall t c p).text = pre ++ " ORDER BY " ++ quoted c ++ " ASC") ∧
    (∀ f : String → Val → Val,
      (issuedCall t c (reValue f p)).text = (issuedCall t c p).text) := by
  refine ⟨?_, ?_, ?_, ?_⟩
  · rw [issuedCall_text, sqlQuery_template]
  · unfold issuedCall
    cases selectMode p <;> rfl
  · obtain ⟨pre, h⟩ := specTemplate_order (selectMode p) t c
    refine ⟨leadingSpace ++ pre, ?_⟩
    rw [issuedCall_text, sqlQuery_template, h]
    simp [String.append_assoc]
  · intro f
    rw [issuedCall_text, issuedCall_text, selectMode_reValue]

/-! ## Duplicate headers -/

theorem hasDuplicateHeadersLoop_iff (headers cols : List String) :
    hasDuplicateHeadersLoop headers cols = true ↔ (∃ x ∈ cols, x ∈ headers) ∨ ¬ cols.Nodup := by
  induction cols generalizing headers with
  | nil => simp [hasDuplicateHeadersLoop]
  | cons r rest ih =>
    unfold hasDuplicateHeadersLoop
    by_cases h : r ∈ headers
    · simp only [h, if_true, true_iff]
      exact Or.inl ⟨r, List.mem_cons_self _ _, h⟩
    · simp only [h, if_false, ih, List.nodup_cons, List.mem_cons]
      constructor
      · rintro (⟨x, hx, hx2⟩ | hnd)
        · rcases hx2 with rfl | hx2
          · exact Or.inr (fun hc => hc.1 hx)
          · exact Or.inl ⟨x, Or.inr hx, hx2⟩
        · exact Or.inr (fun hc => hnd hc.2)
      · rintro (⟨x, hx, hx2⟩ | hnd)
        · rcases hx with rfl | hx
          · exact absurd hx2 h
          · exact Or.inl ⟨x, hx, Or.inr hx2⟩
        · by_cases hr : r ∈ rest
          · exact Or.inl ⟨r, hr, Or.inl rfl⟩
          · exact Or.inr (fun hc => hnd ⟨hr, hc⟩)

theorem hasDuplicateHeaders_iff_not_nodup (cols : List String) :
    hasDuplicateHeaders cols = true ↔ ¬ cols.Nodup := by
  simp [hasDuplicateHeaders, hasDuplicateHeadersLoop_iff]

/-- C6: `hasDuplicateHeaders` is true exactly when some name stands at two different positions
of the column list; and when the query succeeds and yields its columns, `ExecuteQuery` returns
the error "Has duplicate headers" (and no cursor) if that is so, and the cursor otherwise. -/
theorem duplicate_headers_rejected (cols : List String) :
    (hasDuplicateHeaders cols = true ↔
      ∃ i j : Nat, i < j ∧ j < cols.length ∧ cols[i]? = cols[j]?) ∧
    ∀ (db : DBCall → Except String Rows) (tblName syncCol : String) (params : Option GoMap)
      (rows : Rows),
      db (issuedCall tblName syncCol params) = Except.ok rows →
      rows.columns = Except.ok cols →
      ExecuteQuery db tblName syncCol params =
        if hasDuplicateHeaders cols then Except.error "Has duplicate headers"
        else Except.ok (SQLRow.mk rows) := by
  constructor
  · rw [hasDuplicateHeaders_iff_not_nodup, List.nodup_iff_getElem?_ne_getElem?]
    push_neg
    rfl
  · intro db tblName syncCol params rows hdb hcols
    simp [ExecuteQuery, hdb, hcols]

theorem duplicate_headers_rejected_witness :
    ExecuteQuery (fun _ => Except.ok (Rows.mk (Except.ok ["id", "name", "id"]) []))
      "events" "id" none = Except.error "Has duplicate headers" :=
  ((duplicate_headers_rejected ["id", "name", "id"]).2
    (fun _ => Except.ok (Rows.mk (Except.ok ["id", "name", "id"]) []))
    "events" "id" none (Rows.mk (Except.ok ["id", "name", "id"]) []) rfl rfl).trans
    (if_pos (by decide))

/-! ## Maps -/

theorem mapGet_mapSet (k : String) (v : Val) (m : GoMap) (x : String) :
    mapGet (mapSet k v m) x = if k = x then some v else mapGet m x := by
  induction m with
  | nil => simp [mapSet, mapGet]
  | cons e t ih =>
    obtain ⟨k0, v0⟩ := e
    by_cases h : k0 = k
    · subst h
      by_cases hx : k0 = x <;> simp [mapSet, mapGet, hx]
    · by_cases hx : k0 = x
      · subst hx
        have h2 : ¬ k = k0 := fun e => h e.symm
        simp [mapSet, mapGet, h, h2]
      · simp [mapSet, mapGet, h, hx, ih]

theorem mem_keys_iff (m : GoMap) (k : String) : k ∈ keys m ↔ (mapGet m k).isSome = true := by
  rw [mapGet_isSome_iff]
  simp [keys]

theorem keys_mapSet (k : String) (v : Val) (m : GoMap) :
    keys (mapSet k v m) = if k ∈ keys m then keys m else keys m ++ [k] := by
  induction m with
  | nil => simp [mapSet, keys]
  | cons e t ih =>
    obtain ⟨k0, v0⟩ := e
    by_cases h : k0 = k
    · subst h
      simp [mapSet, keys]
    · have h2 : ¬ k = k0 := fun e => h e.symm
      have ih2 : List.map Prod.fst (mapSet k v t) =
          if k ∈ List.map Prod.fst t then List.map Prod.fst t else List.map Prod.fst t ++ [k] := ih
      by_cases hm : k ∈ List.map Prod.fst t
      · simp only [mapSet, keys, h, if_false, List.map_cons, ih2, hm, if_true, List.mem_cons,
          or_true]
      · simp only [mapSet, keys, h, if_false, List.map_cons, ih2, hm, List.mem_cons, h2,
          or_self, List.cons_append]

theorem nodup_keys_mapSet (k : String) (v : Val) (m : GoMap) (h : (keys m).Nodup) :
    (keys (mapSet k v m)).Nodup := by
  rw [keys_mapSet]
  by_cases hm : k ∈ keys m
  · simpa [hm] using h
  · simp only [hm, if_false]
    exact List.Nodup.append h (List.nodup_singleton k) (by simpa using hm)

theorem keys_convertBytesToString (m : GoMap) : keys (convertBytesToString m) = keys m := by
  induction m with
  | nil => rfl
  | cons e t ih =>
    obtain ⟨k0, v0⟩ := e
    have ih2 : List.map Prod.fst (convertBytesToString t) = List.map Prod.fst t := ih
    cases v0 <;> simpa [convertBytesToString, keys] using ih2

theorem mapGet_convertBytesToString (m : GoMap) (k : String) :
    mapGet (convertBytesToString m) k = (mapGet m k).map convVal := by
  induction m with
  | nil => rfl
  | cons e t ih =>
    obtain ⟨k0, v0⟩ := e
    have ih2 : mapGet (List.map (fun e => match e.2 with
        | Val.bytes b => (e.1, Val.str b)
        | _ => e) t) k = (mapGet t k).map convVal := ih
    by_cases h : k0 = k <;> cases v0 <;>
      simp [convertBytesToString, mapGet, h, convVal, ih2]

theorem mapGet_mapScanInto (cols : List String) (vals : List Val) (dest : GoMap) (k : String) :
    mapGet (mapScanInto cols vals dest) k =
      if k ∈ cols then mapGet (mapScanInto cols vals []) k else mapGet dest k := by
  induction cols generalizing vals dest with
  | nil => simp [mapScanInto]
  | cons c cs ih =>
    simp only [mapScanInto]
    rw [ih vals.tail (mapSet c (vals.headD Val.null) dest),
      ih vals.tail (mapSet c (vals.headD Val.null) [])]
    by_cases h1 : k ∈ cs
    · simp [h1]
    · by_cases h2 : c = k
      · subst h2
        simp [h1, mapGet_mapSet]
      · have h3 : ¬ k = c := fun e => h2 e.symm
        simp [h1, h2, h3, mapGet_mapSet]

theorem nodup_keys_mapScanInto (cols : List String) (vals : List Val) (dest : GoMap)
    (h : (keys dest).Nodup) : (keys (mapScanInto cols vals dest)).Nodup := by
  induction cols generalizing vals dest with
  | nil => simpa [mapScanInto] using h
  | cons c cs ih =>
    simp only [mapScanInto]
    exact ih _ _ (nodup_keys_mapSet _ _ _ h)


/-! ## JSON rendering depends on the mapping only -/

theorem sortedKeys_congr (m1 m2 : GoMap) (h1 : (keys m1).Nodup) (h2 : (keys m2).Nodup)
    (h : ∀ k, mapGet m1 k = mapGet m2 k) : sortedKeys m1 = sortedKeys m2 := by
  have hperm : (keys m1).Perm (keys m2) := by
    rw [List.perm_ext_iff_of_nodup h1 h2]
    intro k
    rw [mem_keys_iff, mem_keys_iff, h k]
  apply List.eq_of_perm_of_sorted (r := keyLe)
  · exact ((List.perm_insertionSort keyLe (keys m1)).trans hperm).trans
      (List.perm_insertionSort keyLe (keys m2)).symm
  · exact List.sorted_insertionSort keyLe (keys m1)
  · exact List.sorted_insertionSort keyLe (keys m2)

theorem jsonMembers_congr (m1 m2 : GoMap) (h : ∀ k, mapGet m1 k = mapGet m2 k)
    (ks : List String) : jsonMembers m1 ks = jsonMembers m2 ks := by
  induction ks with
  | nil => rfl
  | cons k t ih => simp only [jsonMembers, h k, ih]

theorem jsonMarshal_congr (m1 m2 : GoMap) (h1 : (keys m1).Nodup) (h2 : (keys m2).Nodup)
    (h : ∀ k, mapGet m1 k = mapGet m2 k) : jsonMarshal (some m1) = jsonMarshal (some m2) := by
  simp only [jsonMarshal, sortedKeys_congr m1 m2 h1 h2 h, jsonMembers_congr m1 m2 h]

/-! ## One round of an encoder's loop -/

theorem recordInv_nil (cols : List String) : RecordInv cols [] :=
  ⟨List.nodup_nil, fun _ _ _ => rfl⟩

theorem mapGet_nextRecord (cols : List String) (ts : String) (vals : List Val) (record : GoMap)
    (hinv : RecordInv cols record) (k : String) :
    mapGet (nextRecord cols ts vals record) k = mapGet (emitted cols ts vals) k := by
  unfold nextRecord emitted rowOf
  rw [mapGet_mapSet, mapGet_mapSet, mapGet_convertBytesToString, mapGet_convertBytesToString,
    mapGet_mapScanInto]
  by_cases hk : "Process_Date" = k
  · simp [hk]
  · by_cases hc : k ∈ cols
    · simp [hk, hc]
    · have hnone : mapGet record k = none := hinv.2 k hc (fun e => hk e.symm)
      have hnone2 : mapGet (mapScanInto cols vals []) k = none := by
        rw [mapGet_mapScanInto]
        simp [hc, mapGet]
      simp [hk, hc, hnone, hnone2]

theorem nodup_keys_nextRecord (cols : List String) (ts : String) (vals : List Val)
    (record : GoMap) (h : (keys record).Nodup) :
    (keys (nextRecord cols ts vals record)).Nodup := by
  unfold nextRecord
  apply nodup_keys_mapSet
  rw [keys_convertBytesToString]
  exact nodup_keys_mapScanInto cols vals record h

theorem recordInv_nextRecord (cols : List String) (ts : String) (vals : List Val)
    (record : GoMap) (hinv : RecordInv cols record) :
    RecordInv cols (nextRecord cols ts vals record) := by
  refine ⟨nodup_keys_nextRecord cols ts vals record hinv.1, ?_⟩
  intro k hc hk
  rw [mapGet_nextRecord cols ts vals record hinv k]
  unfold emitted rowOf
  have hk2 : ¬ "Process_Date" = k := fun e => hk e.symm
  rw [mapGet_mapSet, mapGet_convertBytesToString, mapGet_mapScanInto]
  simp [hk2, hc, mapGet]

theorem jsonMarshal_nextRecord (cols : List String) (ts : String) (vals : List Val)
    (record : GoMap) (hinv : RecordInv cols record) :
    jsonMarshal (some (nextRecord cols ts vals record)) =
      jsonMarshal (some (emitted cols ts vals)) :=
  jsonMarshal_congr _ _ (nodup_keys_nextRecord cols ts vals record hinv.1)
    (nodup_keys_nextRecord cols ts vals [] List.nodup_nil)
    (fun k => (mapGet_nextRecord cols ts vals record hinv k).trans
      (mapGet_nextRecord cols ts vals [] (recordInv_nil cols) k).symm)

theorem jsonMarshal_of_serialized (cols : List String) (ts : String) (vals : List Val)
    (line : String) (h : serialized cols ts vals = Except.ok line) :
    ∃ b, jsonMarshal (some (emitted cols ts vals)) = Except.ok b ∧ line = b ++ "\n" := by
  unfold serialized at h
  cases hm : jsonMarshal (some (emitted cols ts vals)) with
  | error err => simp [hm] at h
  | ok b =>
    simp only [hm, Except.ok.injEq] at h
    exact ⟨b, rfl, h.symm⟩

theorem serialized_of_error (cols : List String) (ts : String) (vals : List Val)
    (err : String) (h : serialized cols ts vals = Except.error err) :
    jsonMarshal (some (emitted cols ts vals)) = Except.error err := by
  unfold serialized at h
  cases hm : jsonMarshal (some (emitted cols ts vals)) with
  | error e =>
    simp only [hm, Except.error.injEq] at h
    rw [h]
  | ok b => simp [hm] at h

/-! ## The loops of the encoders -/

theorem write_unbounded (w : Sink) (h : w.credit = none) (p : String) :
    w.Write p = Except.ok (Sink.mk (w.written ++ p) none) := by
  unfold Sink.Write
  rw [h]

theorem Encode_nextRecord (cols : List String) (ts : String) (vals : List Val)
    (record : GoMap) (hinv : RecordInv cols record) (w : Sink) (hw : w.credit = none)
    (line : String) (hser : serialized cols ts vals = Except.ok line) :
    Encode w (nextRecord cols ts vals record) =
      Except.ok (Sink.mk (w.written ++ line) none) := by
  obtain ⟨b, hb, hline⟩ := jsonMarshal_of_serialized cols ts vals line hser
  unfold Encode
  rw [jsonMarshal_nextRecord cols ts vals record hinv, hb, hline]
  exact write_unbounded w hw _

theorem Encode_nextRecord_error (cols : List String) (ts : String) (vals : List Val)
    (record : GoMap) (hinv : RecordInv cols record) (w : Sink)
    (err : String) (hser : serialized cols ts vals = Except.error err) :
    Encode w (nextRecord cols ts vals record) = Except.error err := by
  unfold Encode
  rw [jsonMarshal_nextRecord cols ts vals record hinv, serialized_of_error cols ts vals err hser]

theorem reflect_nextRecord (cols : List String) (ts sc : String) (vals : List Val)
    (record : GoMap) (hinv : RecordInv cols record) :
    reflectInt (mapGet (nextRecord cols ts vals record) sc) = syncRead cols ts sc vals := by
  rw [mapGet_nextRecord cols ts vals record hinv sc]
  rfl

theorem encodeJSONLDLoop_cons (rc : SQLRow) (cols : List String)
    (hc : rc.rows.columns = Except.ok cols) (sc ts : String) (vals : List Val)
    (rest : List (Except String (List Val))) (w : Sink) (hw : w.credit = none)
    (record : GoMap) (hinv : RecordInv cols record) (last : Int)
    (line : String) (hser : serialized cols ts vals = Except.ok line) :
    encodeJSONLDLoop rc sc ts (Except.ok vals :: rest) w record last =
      match syncRead cols ts sc vals with
      | none => (Sink.mk (w.written ++ line) none, Outcome.panicked)
      | some i => encodeJSONLDLoop rc sc ts rest (Sink.mk (w.written ++ line) none)
          (nextRecord cols ts vals record) i := by
  have hscan : rc.Scan (Except.ok vals) record =
      Except.ok (convertBytesToString (mapScanInto cols vals record)) := by
    simp [SQLRow.Scan, Rows.MapScan, hc]
  have hrec : mapSet "Process_Date" (Val.str ts)
      (convertBytesToString (mapScanInto cols vals record)) = nextRecord cols ts vals record := rfl
  simp only [encodeJSONLDLoop, hscan, hrec,
    Encode_nextRecord cols ts vals record hinv w hw line hser,
    reflect_nextRecord cols ts sc vals record hinv]

theorem encodeJSONLoop_cons (rc : SQLRow) (cols : List String)
    (hc : rc.rows.columns = Except.ok cols) (sc ts : String) (vals : List Val)
    (rest : List (Except String (List Val))) (w : Sink) (hw : w.credit = none)
    (record : GoMap) (hinv : RecordInv cols record) (last : Int) (c : Nat)
    (line : String) (hser : serialized cols ts vals = Except.ok line) :
    encodeJSONLoop rc sc ts (Except.ok vals :: rest) w record last c =
      match syncRead cols ts sc vals with
      | none =>
        (Sink.mk (w.written ++ (if c > 0 then ",\n" else "") ++ line) none, Outcome.panicked)
      | some i => encodeJSONLoop rc sc ts rest
          (Sink.mk (w.written ++ (if c > 0 then ",\n" else "") ++ line) none)
          (nextRecord cols ts vals record) i (c + 1) := by
  have hscan : rc.Scan (Except.ok vals) record =
      Except.ok (convertBytesToString (mapScanInto cols vals record)) := by
    simp [SQLRow.Scan, Rows.MapScan, hc]
  have hrec : mapSet "Process_Date" (Val.str ts)
      (convertBytesToString (mapScanInto cols vals record)) = nextRecord cols ts vals record := rfl
  by_cases hpos : c > 0
  · simp only [encodeJSONLoop, hpos, if_true, hscan, hrec, write_unbounded w hw,
      Encode_nextRecord cols ts vals record hinv (Sink.mk (w.written ++ ",\n") none) rfl line
        hser,
      reflect_nextRecord cols ts sc vals record hinv]
  · simp only [encodeJSONLoop, hpos, if_false, hscan, hrec,
      Encode_nextRecord cols ts vals record hinv w hw line hser,
      reflect_nextRecord cols ts sc vals record hinv, String.append_empty]

theorem encodeJSONLDLoop_outcome (rc : SQLRow) (cols : List String)
    (hc : rc.rows.columns = Except.ok cols) (sc ts : String) (rows : List (List Val)) :
    ∀ (w : Sink) (record : GoMap) (last : Int), w.credit = none → RecordInv cols record →
      (∀ r ∈ rows, ∃ line, serialized cols ts r = Except.ok line) →
      (encodeJSONLDLoop rc sc ts (rows.map Except.ok) w record last).2 =
        if rows.all (fun r => (syncRead cols ts sc r).isSome) then
          Outcome.value (lastAfter cols ts sc rows last)
        else Outcome.panicked := by
  induction rows with
  | nil =>
    intro w record last _ _ _
    simp [encodeJSONLDLoop, lastAfter]
  | cons r rs ih =>
    intro w record last hw hinv hser
    obtain ⟨line, hline⟩ := hser r (List.mem_cons_self _ _)
    rw [List.map_cons, encodeJSONLDLoop_cons rc cols hc sc ts r _ w hw record hinv last line hline]
    cases hr : syncRead cols ts sc r with
    | none => simp [hr]
    | some i =>
      simp only [List.all_cons, hr, Option.isSome_some, Bool.true_and]
      rw [ih _ _ i rfl (recordInv_nextRecord cols ts r record hinv)
        (fun x hx => hser x (List.mem_cons_of_mem _ hx))]
      simp [lastAfter, hr]

theorem encodeJSONLoop_outcome (rc : SQLRow) (cols : List String)
    (hc : rc.rows.columns = Except.ok cols) (sc ts : String) (rows : List (List Val)) :
    ∀ (w : Sink) (record : GoMap) (last : Int) (c : Nat), w.credit = none →
      RecordInv cols record →
      (∀ r ∈ rows, ∃ line, serialized cols ts r = Except.ok line) →
      (encodeJSONLoop rc sc ts (rows.map Except.ok) w record last c).2 =
        if rows.all (fun r => (syncRead cols ts sc r).isSome) then
          Outcome.value (lastAfter cols ts sc rows last)
        else Outcome.panicked := by
  induction rows with
  | nil =>
    intro w record last c hw _ _
    simp [encodeJSONLoop, lastAfter, write_unbounded w hw]
  | cons r rs ih =>
    intro w record last c hw hinv hser
    obtain ⟨line, hline⟩ := hser r (List.mem_cons_self _ _)
    rw [List.map_cons,
      encodeJSONLoop_cons rc cols hc sc ts r _ w hw record hinv last c line hline]
    cases hr : syncRead cols ts sc r with
    | none => simp [hr]
    | some i =>
      simp only [List.all_cons, hr, Option.isSome_some, Bool.true_and]
      rw [ih _ _ i (c + 1) rfl (recordInv_nextRecord cols ts r record hinv)
        (fun x hx => hser x (List.mem_cons_of_mem _ hx))]
      simp [lastAfter, hr]

theorem encodeJSONLoop_written (rc : SQLRow) (cols : List String)
    (hc : rc.rows.columns = Except.ok cols) (sc ts : String) (line : List Val → String)
    (rows : List (List Val)) :
    ∀ (w : Sink) (record : GoMap) (last : Int) (c : Nat), w.credit = none →
      RecordInv cols record →
      (∀ r ∈ rows, serialized cols ts r = Except.ok (line r)) →
      (∀ r ∈ rows, (syncRead cols ts sc r).isSome = true) →
      (encodeJSONLoop rc sc ts (rows.map Except.ok) w record last c).1.written =
        w.written ++ arrayBody line c rows ++ "]" := by
  induction rows with
  | nil =>
    intro w record last c hw _ _ _
    simp [encodeJSONLoop, arrayBody, write_unbounded w hw]
  | cons r rs ih =>
    intro w record last c hw hinv hser hall
    rw [List.map_cons, encodeJSONLoop_cons rc cols hc sc ts r _ w hw record hinv last c (line r)
      (hser r (List.mem_cons_self _ _))]
    have hr := hall r (List.mem_cons_self _ _)
    cases hs : syncRead cols ts sc r with
    | none => simp [hs] at hr
    | some i =>
      simp only []
      rw [ih _ _ i (c + 1) rfl (recordInv_nextRecord cols ts r record hinv)
        (fun x hx => hser x (List.mem_cons_of_mem _ hx))
        (fun x hx => hall x (List.mem_cons_of_mem _ hx))]
      simp [arrayBody, String.append_assoc]

theorem foldl_append_init (l : List String) :
    ∀ acc : String, l.foldl (fun r s => r ++ s) acc = acc ++ l.foldl (fun r s => r ++ s) "" := by
  induction l with
  | nil =>
    intro acc
    simp
  | cons a t ih =>
    intro acc
    simp only [List.foldl_cons, String.empty_append]
    rw [ih (acc ++ a), ih a, String.append_assoc]

theorem join_cons (a : String) (l : List String) :
    String.join (a :: l) = a ++ String.join l := by
  simp only [String.join, List.foldl_cons, String.empty_append]
  exact foldl_append_init l a

theorem intercalate_go (s : String) (f : List Val → String) (rows : List (List Val)) :
    ∀ acc : String, String.intercalate.go acc s (rows.map f) =
      acc ++ String.join (rows.map fun r => s ++ f r) := by
  induction rows with
  | nil =>
    intro acc
    simp [String.intercalate.go, String.join]
  | cons r rs ih =>
    intro acc
    simp only [List.map_cons, String.intercalate.go, ih, join_cons, String.append_assoc]

theorem arrayBody_succ (line : List Val → String) (rows : List (List Val)) :
    ∀ c : Nat, arrayBody line (c + 1) rows =
      String.join (rows.map fun r => ",\n" ++ line r) := by
  induction rows with
  | nil =>
    intro c
    simp [arrayBody, String.join]
  | cons r rs ih =>
    intro c
    simp only [arrayBody, List.map_cons, join_cons, ih, Nat.succ_pos, if_true, gt_iff_lt,
      Nat.zero_lt_succ]

theorem arrayBody_zero (line : List Val → String) (rows : List (List Val)) :
    arrayBody line 0 rows = ",\n".intercalate (rows.map line) := by
  cases rows with
  | nil => rfl
  | cons r rs =>
    simp only [arrayBody, List.map_cons, String.intercalate, intercalate_go, arrayBody_succ]
    simp

/-! ## What the encoders return -/

theorem reflectInt_convVal (x : Option Val) : reflectInt (x.map convVal) = reflectInt x := by
  cases x with
  | none => rfl
  | some v => cases v <;> rfl

theorem syncRead_of_ne (cols : List String) (ts sc : String) (vals : List Val)
    (hsc : sc ≠ "Process_Date") :
    syncRead cols ts sc vals = reflectInt (mapGet (rowOf cols vals) sc) := by
  have h : ¬ "Process_Date" = sc := fun e => hsc e.symm
  unfold syncRead emitted
  rw [mapGet_mapSet, mapGet_convertBytesToString]
  simp only [h, if_false]
  exact reflectInt_convVal _

theorem EncodeJSONLD_outcome (cols : List String) (rows : List (List Val)) (sc ts : String)
    (w : Sink) (hw : w.credit = none)
    (henc : ∀ r ∈ rows, ∃ line, serialized cols ts r = Except.ok line) :
    (EncodeJSONLD w (cursor cols rows) sc ts).2 =
      if rows.all (fun r => (syncRead cols ts sc r).isSome) then
        Outcome.value (lastAfter cols ts sc rows 0)
      else Outcome.panicked :=
  encodeJSONLDLoop_outcome (cursor cols rows) cols rfl sc ts rows w [] 0 hw (recordInv_nil cols)
    henc

theorem EncodeJSON_outcome (cols : List String) (rows : List (List Val)) (sc ts : String)
    (w : Sink) (hw : w.credit = none)
    (henc : ∀ r ∈ rows, ∃ line, serialized cols ts r = Except.ok line) :
    (EncodeJSON w (cursor cols rows) sc ts).2 =
      if rows.all (fun r => (syncRead cols ts sc r).isSome) then
        Outcome.value (lastAfter cols ts sc rows 0)
      else Outcome.panicked := by
  unfold EncodeJSON
  rw [write_unbounded w hw]
  exact encodeJSONLoop_outcome (cursor cols rows) cols rfl sc ts rows _ [] 0 0 rfl
    (recordInv_nil cols) henc

theorem lastAfter_append_last (cols : List String) (ts sc : String) (front : List (List Val))
    (final : List Val) (v : Int) (h : syncRead cols ts sc final = some v) (init : Int) :
    lastAfter cols ts sc (front ++ [final]) init = v := by
  simp [lastAfter, List.foldl_append, h]

/-- C3 (amended): with a sync column other than "Process_Date", no scan error, no row that
`encoding/json` fails to marshal and a sink that takes every write, for rows that each hold an
integer in the sync column both encoders return the sync value of the last row, whatever the
earlier rows hold; and when the sync values are in non-decreasing order it is the greatest of
them. -/
theorem lastRecord_is_last_row (cols : List String) (front : List (List Val))
    (final : List Val) (sc ts : String) (w : Sink) (v : Int)
    (hsc : sc ≠ "Process_Date")
    (hfront : ∀ r ∈ front, ∃ i, mapGet (rowOf cols r) sc = some (Val.int i))
    (hfinal : mapGet (rowOf cols final) sc = some (Val.int v))
    (henc : ∀ r ∈ front ++ [final], ∃ line, serialized cols ts r = Except.ok line)
    (hw : w.credit = none) :
    (EncodeJSONLD w (cursor cols (front ++ [final])) sc ts).2 = Outcome.value v ∧
    (EncodeJSON w (cursor cols (front ++ [final])) sc ts).2 = Outcome.value v ∧
    (List.Pairwise (fun a b => a ≤ b)
        ((front ++ [final]).filterMap fun r => reflectInt (mapGet (rowOf cols r) sc)) →
      ∀ r ∈ front ++ [final], ∀ i, mapGet (rowOf cols r) sc = some (Val.int i) → i ≤ v) := by
  have hread : syncRead cols ts sc final = some v := by
    rw [syncRead_of_ne cols ts sc final hsc, hfinal]
    rfl
  have hall : (front ++ [final]).all (fun r => (syncRead cols ts sc r).isSome) = true := by
    rw [List.all_eq_true]
    intro r hr
    rcases List.mem_append.mp hr with h | h
    · obtain ⟨i, hi⟩ := hfront r h
      rw [syncRead_of_ne cols ts sc r hsc, hi]
      rfl
    · rw [List.mem_singleton.mp h, hread]
      rfl
  refine ⟨?_, ?_, ?_⟩
  · rw [EncodeJSONLD_outcome cols _ sc ts w hw henc, hall, if_pos rfl,
      lastAfter_append_last cols ts sc front final v hread]
  · rw [EncodeJSON_outcome cols _ sc ts w hw henc, hall, if_pos rfl,
      lastAfter_append_last cols ts sc front final v hread]
  · intro hsorted r hr i hi
    rcases List.mem_append.mp hr with h | h
    · rw [List.filterMap_append, List.pairwise_append] at hsorted
      apply hsorted.2.2 i _ v _
      · rw [List.mem_filterMap]
        exact ⟨r, h, by rw [hi]; rfl⟩
      · rw [List.mem_filterMap]
        exact ⟨final, List.mem_singleton.mpr rfl, by rw [hfinal]; rfl⟩
    · rw [List.mem_singleton.mp h, hfinal] at hi
      injection hi with hi
      injection hi with hi
      exact le_of_eq hi.symm

theorem lastRecord_is_last_row_witness :
    (EncodeJSONLD (Sink.mk "" none)
        (cursor ["id", "name"]
          ([[Val.int 5, Val.bytes "a"], [Val.int 7, Val.null]] ++ [[Val.int 9, Val.str "z"]]))
        "id" "2020-01-01T00:00:00Z").2 = Outcome.value 9 ∧
    (EncodeJSON (Sink.mk "" none)
        (cursor ["id", "name"]
          ([[Val.int 5, Val.bytes "a"], [Val.int 7, Val.null]] ++ [[Val.int 9, Val.str "z"]]))
        "id" "2020-01-01T00:00:00Z").2 = Outcome.value 9 :=
  have h := lastRecord_is_last_row ["id", "name"]
    [[Val.int 5, Val.bytes "a"], [Val.int 7, Val.null]] [Val.int 9, Val.str "z"]
    "id" "2020-01-01T00:00:00Z" (Sink.mk "" none) 9 (by decide)
    (by
      intro r hr
      simp only [List.mem_cons, List.mem_singleton, List.not_mem_nil, or_false] at hr
      rcases hr with rfl | rfl
      · exact ⟨5, by decide⟩
      · exact ⟨7, by decide⟩)
    (by decide)
    (by
      intro r hr
      simp only [List.cons_append, List.nil_append, List.mem_cons, List.mem_singleton,
        List.not_mem_nil, or_false] at hr
      rcases hr with rfl | rfl | rfl
      · exact ⟨"\x7b\"Process_Date\":\"2020-01-01T00:00:00Z\",\"id\":5,\"name\":\"a\"\x7d\n",
          by rfl⟩
      · exact ⟨"\x7b\"Process_Date\":\"2020-01-01T00:00:00Z\",\"id\":7,\"name\":null\x7d\n",
          by rfl⟩
      · exact ⟨"\x7b\"Process_Date\":\"2020-01-01T00:00:00Z\",\"id\":9,\"name\":\"z\"\x7d\n",
          by rfl⟩)
    rfl
  ⟨h.1, h.2.1⟩

/-- C3, as stated, fails in two ways, with no scan error and a sink that takes every write.
A row with the integer 5 in the sync column "id" and a NaN in a float column makes `Encode`
return the error of `encoding/json`, which both encoders hand on instead of returning 5.  And
with the sync column "Process_Date" the integer of the row is replaced by the timestamp before
it is read, so 5 is not returned either. -/
theorem lastRecord_counterexample :
    mapGet (rowOf ["id", "x"] [Val.int 5, floatNaN]) "id" = some (Val.int 5) ∧
    EncodeJSONLD (Sink.mk "" none) (cursor ["id", "x"] [[Val.int 5, floatNaN]])
        "id" "2020-01-01T00:00:00Z" =
      (Sink.mk "" none, Outcome.error "json: unsupported value: NaN") ∧
    EncodeJSON (Sink.mk "" none) (cursor ["id", "x"] [[Val.int 5, floatNaN]])
        "id" "2020-01-01T00:00:00Z" =
      (Sink.mk "[" none, Outcome.error "json: unsupported value: NaN") ∧
    mapGet (rowOf ["Process_Date", "name"] [Val.int 5, Val.str "a"]) "Process_Date"
      = some (Val.int 5) ∧
    (EncodeJSONLD (Sink.mk "" none)
        (cursor ["Process_Date", "name"] [[Val.int 5, Val.str "a"]])
        "Process_Date" "2020-01-01T00:00:00Z").2 ≠ Outcome.value 5 ∧
    (EncodeJSON (Sink.mk "" none)
        (cursor ["Process_Date", "name"] [[Val.int 5, Val.str "a"]])
        "Process_Date" "2020-01-01T00:00:00Z").2 ≠ Outcome.value 5 := by
  decide

/-! ## A sync value that is no integer -/

/-- C4, at the failing input: one row whose sync column "id" holds the text "abc" (delivered as
bytes), a sink that takes every write.  Each encoder writes the row and then panics in
`reflect.Value.Int`; it returns no error.  The same happens on a null and on a sync column the
rows do not have. -/
theorem encoders_panic_on_text_sync :
    EncodeJSONLD (Sink.mk "" none) (cursor ["id"] [[Val.bytes "abc"]]) "id" "t" =
      (Sink.mk "\x7b\"Process_Date\":\"t\",\"id\":\"abc\"\x7d\n" none, Outcome.panicked) ∧
    EncodeJSON (Sink.mk "" none) (cursor ["id"] [[Val.bytes "abc"]]) "id" "t" =
      (Sink.mk "[\x7b\"Process_Date\":\"t\",\"id\":\"abc\"\x7d\n" none, Outcome.panicked) ∧
    (EncodeJSONLD (Sink.mk "" none) (cursor ["id"] [[Val.null]]) "id" "t").2 =
      Outcome.panicked ∧
    (EncodeJSON (Sink.mk "" none) (cursor ["id"] [[Val.null]]) "id" "t").2 =
      Outcome.panicked ∧
    (EncodeJSONLD (Sink.mk "" none) (cursor ["id"] [[Val.int 1]]) "uid" "t").2 =
      Outcome.panicked ∧
    (EncodeJSON (Sink.mk "" none) (cursor ["id"] [[Val.int 1]]) "uid" "t").2 =
      Outcome.panicked := by
  decide

theorem unsupported_sync_returns_error :
    EncodeJSONLD (Sink.mk "" none) (cursor ["id"] [[floatPosInf]]) "id" "t" =
      (Sink.mk "" none, Outcome.error "json: unsupported value: +Inf") ∧
    EncodeJSON (Sink.mk "" none) (cursor ["id"] [[floatPosInf]]) "id" "t" =
      (Sink.mk "[" none, Outcome.error "json: unsupported value: +Inf") := by
  decide

/-! ## What `EncodeJSON` writes -/

theorem EncodeJSON_output_of_read (cols : List String) (rows : List (List Val))
    (sc ts : String) (line : List Val → String) (w : Sink) (hw : w.credit = none)
    (hser : ∀ r ∈ rows, serialized cols ts r = Except.ok (line r))
    (hall : ∀ r ∈ rows, (syncRead cols ts sc r).isSome = true) :
    (EncodeJSON w (cursor cols rows) sc ts).1.written =
      w.written ++ "[" ++ ",\n".intercalate (rows.map line) ++ "]" := by
  unfold EncodeJSON
  rw [write_unbounded w hw]
  have h := encodeJSONLoop_written (cursor cols rows) cols rfl sc ts line rows
    (Sink.mk (w.written ++ "[") none) [] 0 0 rfl (recordInv_nil cols) hser hall
  rw [arrayBody_zero] at h
  exact h

/-- C7 (amended): with a sync column other than "Process_Date", rows that each hold an integer
in the sync column, no scan error, no row that `encoding/json` fails to marshal and a sink
that takes every write, `EncodeJSON` writes "[", then the serialization of each row (`line r`:
the JSON object of the row with the timestamp under "Process_Date", and a line break) in
input order, with ",\n" between consecutive rows and none before the first, then "]"; for no
rows it writes "[]". -/
theorem EncodeJSON_written (cols : List String) (rows : List (List Val)) (sc ts : String)
    (line : List Val → String) (w : Sink) (hsc : sc ≠ "Process_Date")
    (hint : ∀ r ∈ rows, ∃ i, mapGet (rowOf cols r) sc = some (Val.int i))
    (hser : ∀ r ∈ rows, serialized cols ts r = Except.ok (line r))
    (hw : w.credit = none) :
    (EncodeJSON w (cursor cols rows) sc ts).1.written =
      w.written ++ "[" ++ ",\n".intercalate (rows.map line) ++ "]" ∧
    (EncodeJSON w (cursor cols []) sc ts).1.written = w.written ++ "[]" := by
  constructor
  · apply EncodeJSON_output_of_read cols rows sc ts line w hw hser
    intro r hr
    obtain ⟨i, hi⟩ := hint r hr
    rw [syncRead_of_ne cols ts sc r hsc, hi]
    rfl
  · rw [EncodeJSON_output_of_read cols [] sc ts line w hw
      (fun r hr => absurd hr (List.not_mem_nil r))
      (fun r hr => absurd hr (List.not_mem_nil r))]
    simp [String.intercalate, String.append_assoc]

theorem EncodeJSON_written_witness :
    (EncodeJSON (Sink.mk "" none) (cursor ["id"] [[Val.int 5], [Val.int 7], [Val.int 9]])
        "id" "t").1.written =
      "[\x7b\"Process_Date\":\"t\",\"id\":5\x7d\n,\n\x7b\"Process_Date\":\"t\",\"id\":7\x7d\n,\n" ++
        "\x7b\"Process_Date\":\"t\",\"id\":9\x7d\n]" :=
  ((EncodeJSON_written ["id"] [[Val.int 5], [Val.int 7], [Val.int 9]] "id" "t"
    (fun r =>
      match serialized ["id"] "t" r with
      | Except.ok s => s
      | Except.error _ => "")
    (Sink.mk "" none)
    (by decide)
    (by
      intro r hr
      simp only [List.mem_cons, List.mem_singleton, List.not_mem_nil, or_false] at hr
      rcases hr with rfl | rfl | rfl
      · exact ⟨5, by decide⟩
      · exact ⟨7, by decide⟩
      · exact ⟨9, by decide⟩)
    (by
      intro r hr
      simp only [List.mem_cons, List.mem_singleton, List.not_mem_nil, or_false] at hr
      rcases hr with rfl | rfl | rfl <;> rfl)
    rfl).1).trans (by decide)

/-- C7, as stated, fails on a row that `encoding/json` cannot marshal: no scan fails and the
sink takes every write, the sync column holds integers, yet on the NaN of the first row
`Encode` returns an error and `EncodeJSON` returns it, having written the opening delimiter
only: what is written is no array, whatever the rows' serializations are taken to be. -/
theorem EncodeJSON_written_counterexample :
    EncodeJSON (Sink.mk "" none)
        (cursor ["id", "x"] [[Val.int 5, floatNaN], [Val.int 7, Val.other "1.5" "1.5"]])
        "id" "t" =
      (Sink.mk "[" none, Outcome.error "json: unsupported value: NaN") ∧
    ¬ ∃ body : String,
      (EncodeJSON (Sink.mk "" none)
        (cursor ["id", "x"] [[Val.int 5, floatNaN], [Val.int 7, Val.other "1.5" "1.5"]])
        "id" "t").1.written = "[" ++ body ++ "]" := by
  have h : EncodeJSON (Sink.mk "" none)
      (cursor ["id", "x"] [[Val.int 5, floatNaN], [Val.int 7, Val.other "1.5" "1.5"]])
      "id" "t" = (Sink.mk "[" none, Outcome.error "json: unsupported value: NaN") := by
    decide
  refine ⟨h, ?_⟩
  rintro ⟨body, hb⟩
  rw [h] at hb
  have hlen := congrArg String.length hb
  simp only [String.length_append] at hlen
  have h1 : "[".length = 1 := by decide
  have h2 : "]".length = 1 := by decide
  simp only [h1, h2] at hlen
  omega

/-! ## The empty result -/

/-- C10: on a cursor that yields no row `EncodeJSONLD` writes nothing and returns 0, and, the
sink taking its two writes, `EncodeJSON` writes "[]" and returns 0; neither returns an error,
and the state `main` persists is 0 whatever state was persisted before. -/
theorem empty_result (w : Sink) (rc : SQLRow) (sc ts encType : String) (statePay : Int)
    (hempty : rc.rows.pending = []) (hw : w.accepts 2) :
    EncodeJSONLD w rc sc ts = (w, Outcome.value 0) ∧
    (EncodeJSON w rc sc ts).1.written = w.written ++ "[]" ∧
    (EncodeJSON w rc sc ts).2 = Outcome.value 0 ∧
    cliNewState statePay (cliEncode encType w rc sc ts).2 = some 0 := by
  have hld : EncodeJSONLD w rc sc ts = (w, Outcome.value 0) := by
    simp [EncodeJSONLD, hempty, encodeJSONLDLoop]
  have hj : (EncodeJSON w rc sc ts).1.written = w.written ++ "[]" ∧
      (EncodeJSON w rc sc ts).2 = Outcome.value 0 := by
    obtain ⟨written, credit⟩ := w
    cases credit with
    | none =>
      simp [EncodeJSON, hempty, encodeJSONLoop, Sink.Write, String.append_assoc]
    | some k =>
      have hk : 2 ≤ k := hw
      obtain ⟨n, rfl⟩ : ∃ n, k = n + 2 := ⟨k - 2, by omega⟩
      simp [EncodeJSON, hempty, encodeJSONLoop, Sink.Write, String.append_assoc]
  refine ⟨hld, hj.1, hj.2, ?_⟩
  unfold cliEncode
  by_cases he : encType = "json"
  · simp [he, hj.2, cliNewState]
  · simp [he, hld, cliNewState]

theorem empty_result_witness :
    EncodeJSONLD (Sink.mk "" (some 2)) (cursor ["id"] []) "id" "t" =
      (Sink.mk "" (some 2), Outcome.value 0) ∧
    (EncodeJSON (Sink.mk "" (some 2)) (cursor ["id"] []) "id" "t").1.written = "" ++ "[]" ∧
    (EncodeJSON (Sink.mk "" (some 2)) (cursor ["id"] []) "id" "t").2 = Outcome.value 0 ∧
    cliNewState 41 (cliEncode "json" (Sink.mk "" (some 2)) (cursor ["id"] []) "id" "t").2 =
      some 0 :=
  empty_result (Sink.mk "" (some 2)) (cursor ["id"] []) "id" "t" "json" 41 rfl
    (Nat.le_refl 2)

/-! ## driver.go: cleaned parameters and the connection string -/

theorem mapSet_of_not_mem (k : String) (v : Val) (m : GoMap) (h : k ∉ keys m) :
    mapSet k v m = m ++ [(k, v)] := by
  induction m with
  | nil => rfl
  | cons e t ih =>
    obtain ⟨k0, v0⟩ := e
    have h0 : ¬ k0 = k := fun e => h (by simp [keys, e])
    have ht : k ∉ keys t := fun hm => h (by
      simp only [keys, List.map_cons, List.mem_cons]
      exact Or.inr hm)
    simp [mapSet, h0, ih ht]

theorem cleanParams_fold (l : GoMap) :
    ∀ acc : GoMap, (keys l).Nodup → (∀ k ∈ keys l, k ∉ keys acc) →
      l.foldl (fun acc e => if e.2 = Val.str "" then acc else mapSet e.1 e.2 acc) acc =
        acc ++ l.filter (fun e => e.2 ≠ Val.str "") := by
  induction l with
  | nil =>
    intro acc _ _
    simp
  | cons e t ih =>
    intro acc hnd hdis
    have hnd2 : e.1 ∉ keys t ∧ (keys t).Nodup := by
      simpa [keys] using hnd
    have he : e.1 ∉ keys acc := hdis e.1 (by simp [keys])
    by_cases hv : e.2 = Val.str ""
    · simp only [List.foldl_cons, hv, if_true]
      rw [ih acc hnd2.2 (fun k hk => hdis k (by
        simp only [keys, List.map_cons, List.mem_cons]
        exact Or.inr hk))]
      simp [List.filter, hv]
    · simp only [List.foldl_cons, hv, if_false]
      rw [mapSet_of_not_mem e.1 e.2 acc he, ih _ hnd2.2]
      · simp [List.filter, hv]
      · intro k hk hmem
        have hmem2 : k ∈ keys acc ∨ k = e.1 := by
          simpa [keys] using hmem
        rcases hmem2 with h | h
        · exact hdis k (by
            simp only [keys, List.map_cons, List.mem_cons]
            exact Or.inr hk) h
        · exact hnd2.1 (h ▸ hk)

theorem cleanParams_eq_filter (p : Option GoMap) (hp : (keys (entries p)).Nodup) :
    cleanParams p = (entries p).filter (fun e => e.2 ≠ Val.str "") := by
  unfold cleanParams
  rw [cleanParams_fold (entries p) [] hp (fun _ _ h => by simp [keys] at h)]
  simp

theorem Connect_registered (dial : String → String → Option String) (visit : GoMap → GoMap)
    (st : Pool) (driver : String) (p : Option GoMap)
    (hd : driver = "postgres" ∨ driver = "postgresql") :
    Connect dial visit st driver p =
      match dial "postgres" (postgresConnString (visit (cleanParams p))) with
      | some err => (st, Except.error err)
      | none =>
        (Pool.mk (st.conns ++ [Conn.mk "postgres" (postgresConnString (visit (cleanParams p)))
          none none false]) st.connMap, Except.ok st.conns.length) := by
  rcases hd with rfl | rfl <;> rfl

/-- C9: for every connection-parameter mapping `p` (its keys distinct, as in every Go map),
`cleanParams p` holds exactly the entries of `p` whose value is not the empty string, with
their keys and values, and is a map again; and for a postgres driver name `Connect` dials with
a connection string that is one `key=value` per entry of `cleanParams p`, each entry once, in
the order `range` visits them, joined by single blanks.  `cleanParams` only reads `p`. -/
theorem cleanParams_connString (p : Option GoMap) (hp : (keys (entries p)).Nodup) :
    cleanParams p = (entries p).filter (fun e => e.2 ≠ Val.str "") ∧
    (∀ k v, (k, v) ∈ cleanParams p ↔ (k, v) ∈ entries p ∧ v ≠ Val.str "") ∧
    (keys (cleanParams p)).Nodup ∧
    ∀ (dial : String → String → Option String) (visit : GoMap → GoMap) (st : Pool)
      (driver : String), (driver = "postgres" ∨ driver = "postgresql") →
      (∀ m, (visit m).Perm m) →
      ∃ seen : GoMap, seen.Perm (cleanParams p) ∧
        Connect dial visit st driver p =
          match dial "postgres" (" ".intercalate (seen.map fun e => e.1 ++ "=" ++ fmtV e.2)) with
          | some err => (st, Except.error err)
          | none =>
            (Pool.mk (st.conns ++ [Conn.mk "postgres"
              (" ".intercalate (seen.map fun e => e.1 ++ "=" ++ fmtV e.2)) none none false])
              st.connMap, Except.ok st.conns.length) := by
  have h1 := cleanParams_eq_filter p hp
  refine ⟨h1, ?_, ?_, ?_⟩
  · intro k v
    rw [h1, List.mem_filter]
    simp
  · rw [h1]
    exact (List.Nodup.sublist ((List.filter_sublist _).map Prod.fst) hp)
  · intro dial visit st driver hd hvisit
    exact ⟨visit (cleanParams p), hvisit _, Connect_registered dial visit st driver p hd⟩

theorem cleanParams_connString_witness :
    cleanParams (some [("host", Val.str "h"), ("password", Val.str ""), ("port", Val.int 5432)])
      = [("host", Val.str "h"), ("port", Val.int 5432)] ∧
    ∃ seen : GoMap,
      seen.Perm (cleanParams
        (some [("host", Val.str "h"), ("password", Val.str ""), ("port", Val.int 5432)])) ∧
      Connect (fun _ _ => none) List.reverse (Pool.mk [] []) "postgresql"
          (some [("host", Val.str "h"), ("password", Val.str ""), ("port", Val.int 5432)]) =
        (Pool.mk ([] ++ [Conn.mk "postgres"
          (" ".intercalate (seen.map fun e => e.1 ++ "=" ++ fmtV e.2)) none none false]) [],
          Except.ok 0) :=
  have h := cleanParams_connString
    (some [("host", Val.str "h"), ("password", Val.str ""), ("port", Val.int 5432)])
    (by decide)
  ⟨h.1.trans (by decide),
    h.2.2.2 (fun _ _ => none) List.reverse (Pool.mk [] []) "postgresql" (Or.inr rfl)
      List.reverse_perm⟩

theorem Connect_password_example :
    Connect (fun _ _ => none) List.reverse (Pool.mk [] []) "postgresql"
        (some [("host", Val.str "h"), ("password", Val.str ""), ("port", Val.int 5432)]) =
      (Pool.mk [Conn.mk "postgres" "port=5432 host=h" none none false] [], Except.ok 0) := by
  rfl

/-! ## connect.go: the connection cache -/

theorem mapGet_perm (m1 m2 : GoMap) (hperm : m1.Perm m2) (hnd : (keys m1).Nodup)
    (k : String) : mapGet m1 k = mapGet m2 k := by
  induction hperm with
  | nil => rfl
  | cons e _ ih =>
    obtain ⟨k0, v0⟩ := e
    have hnd2 : (keys _).Nodup := (List.nodup_cons.mp hnd).2
    simp only [mapGet, ih hnd2]
  | swap a b l =>
    obtain ⟨ka, va⟩ := a
    obtain ⟨kb, vb⟩ := b
    have hne : kb ≠ ka := by
      intro e
      simp [keys, e] at hnd
    simp only [mapGet]
    by_cases h1 : ka = k
    · have h2 : ¬ kb = k := fun e => hne (e.trans h1.symm)
      simp [h1, h2]
    · simp [h1]
  | trans h12 _ ih1 ih2 =>
    have hnd2 : (keys _).Nodup := ((h12.map Prod.fst).nodup_iff).mp hnd
    exact (ih1 hnd).trans (ih2 hnd2)

theorem jsonMarshal_perm (p q : Option GoMap) (hp : (keys (entries p)).Nodup)
    (hnil : p.isSome = q.isSome) (hperm : (entries p).Perm (entries q)) :
    jsonMarshal p = jsonMarshal q := by
  cases p with
  | none =>
    cases q with
    | none => rfl
    | some m2 => simp at hnil
  | some m1 =>
    cases q with
    | none => simp at hnil
    | some m2 =>
      exact jsonMarshal_congr m1 m2 hp (((hperm.map Prod.fst).nodup_iff).mp hp)
        (mapGet_perm m1 m2 hperm hp)

theorem connMapGet_connMapSet_self (k : String) (db : Nat) (m : List (String × Nat)) :
    connMapGet (connMapSet k db m) k = some db := by
  induction m with
  | nil => simp [connMapSet, connMapGet]
  | cons e t ih =>
    obtain ⟨k0, db0⟩ := e
    by_cases h : k0 = k
    · simp [connMapSet, connMapGet, h]
    · simp [connMapSet, connMapGet, h, ih]

theorem connMapGet_mem (m : List (String × Nat)) (k : String) (db : Nat)
    (h : connMapGet m k = some db) : (k, db) ∈ m := by
  induction m with
  | nil => simp [connMapGet] at h
  | cons e t ih =>
    obtain ⟨k0, db0⟩ := e
    by_cases hk : k0 = k
    · simp only [connMapGet, hk, if_true, Option.some.injEq] at h
      simp [hk, h]
    · simp only [connMapGet, hk, if_false] at h
      exact List.mem_cons_of_mem _ (ih h)

theorem ConnectionPool_hit (dial : String → String → Option String) (visit : GoMap → GoMap)
    (st : Pool) (d : String) (p : Option GoMap) (key : String) (db : Nat)
    (hk : cacheKey d p = Except.ok key) (h : connMapGet st.connMap key = some db) :
    ConnectionPool dial visit st d p = (st, Except.ok db) := by
  simp [ConnectionPool, hk, h]

theorem ConnectionPool_cached (dial : String → String → Option String) (visit : GoMap → GoMap)
    (st st1 : Pool) (d : String) (p : Option GoMap) (db : Nat)
    (h : ConnectionPool dial visit st d p = (st1, Except.ok db)) :
    ∃ key, cacheKey d p = Except.ok key ∧ connMapGet st1.connMap key = some db := by
  unfold ConnectionPool at h
  cases hk : cacheKey d p with
  | error err => simp [hk] at h
  | ok key =>
    refine ⟨key, rfl, ?_⟩
    cases hg : connMapGet st.connMap key with
    | some db0 =>
      simp only [hk, hg, Prod.mk.injEq, Except.ok.injEq] at h
      rw [← h.1, ← h.2]
      exact hg
    | none =>
      rcases hC : Connect dial visit st d p with ⟨s, r⟩
      cases r with
      | error err => simp [hk, hg, hC] at h
      | ok db1 =>
        simp only [hk, hg, hC, Prod.mk.injEq, Except.ok.injEq] at h
        rw [← h.1, ← h.2]
        exact connMapGet_connMapSet_self _ _ _

/-- C5 (amended): for every driver name and every two parameter mappings that are the same
mapping (the same entries in whatever key order, and both nil or both not nil),
`ConnectionPool` computes the same cache key, so after a successful call with the one the call
with the other returns the same cached handle and leaves the pool as it is, opening no
connection. -/
theorem cacheKey_same_entries (dial : String → String → Option String)
    (visit : GoMap → GoMap) (st st1 : Pool) (d : String) (p q : Option GoMap) (db : Nat)
    (hp : (keys (entries p)).Nodup) (hnil : p.isSome = q.isSome)
    (hperm : (entries p).Perm (entries q))
    (hfirst : ConnectionPool dial visit st d p = (st1, Except.ok db)) :
    cacheKey d p = cacheKey d q ∧
    ConnectionPool dial visit st1 d q = (st1, Except.ok db) := by
  have hkey : cacheKey d p = cacheKey d q := by
    unfold cacheKey
    rw [jsonMarshal_perm p q hp hnil hperm]
  refine ⟨hkey, ?_⟩
  obtain ⟨key, hk, hget⟩ := ConnectionPool_cached dial visit st st1 d p db hfirst
  exact ConnectionPool_hit dial visit st1 d q key db (hkey ▸ hk) hget

theorem cacheKey_same_entries_witness :
    cacheKey "postgres" (some [("host", Val.str "h"), ("port", Val.int 5432)]) =
      cacheKey "postgres" (some [("port", Val.int 5432), ("host", Val.str "h")]) ∧
    ConnectionPool (fun _ _ => none) id
        (Pool.mk [Conn.mk "postgres" "host=h port=5432" (some 10) (some 600000000000) false]
          [("postgres\x7b\"host\":\"h\",\"port\":5432\x7d", 0)])
        "postgres" (some [("port", Val.int 5432), ("host", Val.str "h")]) =
      (Pool.mk [Conn.mk "postgres" "host=h port=5432" (some 10) (some 600000000000) false]
          [("postgres\x7b\"host\":\"h\",\"port\":5432\x7d", 0)], Except.ok 0) :=
  cacheKey_same_entries (fun _ _ => none) id (Pool.mk [] [])
    (Pool.mk [Conn.mk "postgres" "host=h port=5432" (some 10) (some 600000000000) false]
      [("postgres\x7b\"host\":\"h\",\"port\":5432\x7d", 0)])
    "postgres" (some [("host", Val.str "h"), ("port", Val.int 5432)])
    (some [("port", Val.int 5432), ("host", Val.str "h")]) 0
    (by decide) rfl (List.Perm.swap _ _ _) (by rfl)

/-- C5, as stated, fails: two mappings that are equal once their empty-string entries are
removed get different cache keys, and the second call opens a second connection and returns
another handle.  The nil and the empty mapping, equal in the same sense, get different keys
too. -/
theorem cacheKey_empty_string_counterexample :
    cleanParams (some [("host", Val.str "h"), ("password", Val.str "")]) =
      cleanParams (some [("host", Val.str "h")]) ∧
    cacheKey "postgres" (some [("host", Val.str "h"), ("password", Val.str "")]) =
      Except.ok "postgres\x7b\"host\":\"h\",\"password\":\"\"\x7d" ∧
    cacheKey "postgres" (some [("host", Val.str "h")]) =
      Except.ok "postgres\x7b\"host\":\"h\"\x7d" ∧
    ConnectionPool (fun _ _ => none) id (Pool.mk [] []) "postgres"
        (some [("host", Val.str "h"), ("password", Val.str "")]) =
      (Pool.mk [Conn.mk "postgres" "host=h" (some 10) (some 600000000000) false]
        [("postgres\x7b\"host\":\"h\",\"password\":\"\"\x7d", 0)], Except.ok 0) ∧
    ConnectionPool (fun _ _ => none) id
        (Pool.mk [Conn.mk "postgres" "host=h" (some 10) (some 600000000000) false]
          [("postgres\x7b\"host\":\"h\",\"password\":\"\"\x7d", 0)])
        "postgres" (some [("host", Val.str "h")]) =
      (Pool.mk [Conn.mk "postgres" "host=h" (some 10) (some 600000000000) false,
          Conn.mk "postgres" "host=h" (some 10) (some 600000000000) false]
        [("postgres\x7b\"host\":\"h\",\"password\":\"\"\x7d", 0),
          ("postgres\x7b\"host\":\"h\"\x7d", 1)], Except.ok 1) ∧
    cleanParams none = cleanParams (some []) ∧
    cacheKey "postgres" none = Except.ok "postgresnull" ∧
    cacheKey "postgres" (some []) = Except.ok "postgres\x7b\x7d" :=
  ⟨by decide, by rfl, by rfl, by rfl, by rfl, by decide, by rfl, by rfl⟩

/-! ## Shutdown -/

theorem length_closeConn (db : Nat) (conns : List Conn) :
    (closeConn db conns).length = conns.length := by
  induction conns generalizing db with
  | nil => simp [closeConn]
  | cons c cs ih =>
    cases db with
    | zero => simp [closeConn]
    | succ n => simp [closeConn, ih n]

theorem closedAt_closeConn_self (db : Nat) (conns : List Conn) (h : db < conns.length) :
    closedAt (closeConn db conns) db = true := by
  induction conns generalizing db with
  | nil => simp at h
  | cons c cs ih =>
    cases db with
    | zero => rfl
    | succ n =>
      have h2 : n < cs.length := by simpa using h
      simpa [closeConn, closedAt] using ih n h2

theorem closedAt_closeConn_mono (db x : Nat) (conns : List Conn)
    (h : closedAt conns x = true) : closedAt (closeConn db conns) x = true := by
  induction conns generalizing db x with
  | nil => simp [closedAt] at h
  | cons c cs ih =>
    cases db with
    | zero =>
      cases x with
      | zero => rfl
      | succ m => simpa [closeConn, closedAt] using h
    | succ n =>
      cases x with
      | zero => simpa [closeConn, closedAt] using h
      | succ m =>
        have h2 : closedAt cs m = true := by simpa [closedAt] using h
        simpa [closeConn, closedAt] using ih n m h2

theorem closedAt_foldl_mono (l : List (String × Nat)) :
    ∀ (conns : List Conn) (x : Nat), closedAt conns x = true →
      closedAt (l.foldl (fun conns e => closeConn e.2 conns) conns) x = true := by
  induction l with
  | nil =>
    intro conns x h
    exact h
  | cons e t ih =>
    intro conns x h
    exact ih _ x (closedAt_closeConn_mono e.2 x conns h)

theorem closedAt_foldl (l : List (String × Nat)) :
    ∀ (conns : List Conn), (∀ e ∈ l, e.2 < conns.length) →
      ∀ e ∈ l, closedAt (l.foldl (fun conns e => closeConn e.2 conns) conns) e.2 = true := by
  induction l with
  | nil =>
    intro conns _ e he
    exact absurd he (List.not_mem_nil e)
  | cons a t ih =>
    intro conns hwf e he
    rcases List.mem_cons.mp he with rfl | h
    · exact closedAt_foldl_mono t _ _
        (closedAt_closeConn_self _ conns (hwf _ (List.mem_cons_self _ _)))
    · apply ih (closeConn a.2 conns) _ e h
      intro e2 he2
      rw [length_closeConn]
      exact hwf e2 (List.mem_cons_of_mem _ he2)

/-- C8 (amended): after `Shutdown` every handle the cache holds has been closed, and the cache
holds the same entries as before; so a later `ConnectionPool` call with a pair used before
finds its entry and returns that handle, which is closed, and opens no connection. -/
theorem Shutdown_closes_and_keeps (st : Pool)
    (hwf : ∀ e ∈ st.connMap, e.2 < st.conns.length) :
    (∀ e ∈ st.connMap, isClosed (Shutdown st) e.2 = true) ∧
    (Shutdown st).connMap = st.connMap ∧
    ∀ (dial : String → String → Option String) (visit : GoMap → GoMap) (d : String)
      (p : Option GoMap) (key : String) (db : Nat), cacheKey d p = Except.ok key →
      connMapGet st.connMap key = some db →
      ConnectionPool dial visit (Shutdown st) d p = (Shutdown st, Except.ok db) ∧
        isClosed (Shutdown st) db = true := by
  have hclosed : ∀ e ∈ st.connMap, isClosed (Shutdown st) e.2 = true :=
    closedAt_foldl st.connMap st.conns hwf
  refine ⟨hclosed, rfl, ?_⟩
  intro dial visit d p key db hk hget
  exact ⟨ConnectionPool_hit dial visit (Shutdown st) d p key db hk hget,
    hclosed (key, db) (connMapGet_mem _ _ _ hget)⟩

theorem Shutdown_closes_and_keeps_witness :
    isClosed (Shutdown (Pool.mk [Conn.mk "postgres" "host=h" (some 10) (some 600000000000) false]
      [("postgres\x7b\"host\":\"h\"\x7d", 0)])) 0 = true ∧
    (Shutdown (Pool.mk [Conn.mk "postgres" "host=h" (some 10) (some 600000000000) false]
      [("postgres\x7b\"host\":\"h\"\x7d", 0)])).connMap =
      [("postgres\x7b\"host\":\"h\"\x7d", 0)] ∧
    ConnectionPool (fun _ _ => none) id
        (Shutdown (Pool.mk [Conn.mk "postgres" "host=h" (some 10) (some 600000000000) false]
          [("postgres\x7b\"host\":\"h\"\x7d", 0)]))
        "postgres" (some [("host", Val.str "h")]) =
      (Shutdown (Pool.mk [Conn.mk "postgres" "host=h" (some 10) (some 600000000000) false]
          [("postgres\x7b\"host\":\"h\"\x7d", 0)]), Except.ok 0) :=
  have h := Shutdown_closes_and_keeps
    (Pool.mk [Conn.mk "postgres" "host=h" (some 10) (some 600000000000) false]
      [("postgres\x7b\"host\":\"h\"\x7d", 0)])
    (by decide)
  ⟨h.1 ("postgres\x7b\"host\":\"h\"\x7d", 0) (List.mem_singleton.mpr rfl), h.2.1,
    (h.2.2 (fun _ _ => none) id "postgres" (some [("host", Val.str "h")])
      "postgres\x7b\"host\":\"h\"\x7d" 0 (by rfl) (by decide)).1⟩

/-- C8, as stated, fails: after `Shutdown` the cache is not empty, and `ConnectionPool` called
again with the pair used before returns the handle that `Shutdown` has closed. -/
theorem Shutdown_counterexample :
    ConnectionPool (fun _ _ => none) id (Pool.mk [] []) "postgres"
        (some [("host", Val.str "h")]) =
      (Pool.mk [Conn.mk "postgres" "host=h" (some 10) (some 600000000000) false]
        [("postgres\x7b\"host\":\"h\"\x7d", 0)], Except.ok 0) ∧
    Shutdown (Pool.mk [Conn.mk "postgres" "host=h" (some 10) (some 600000000000) false]
        [("postgres\x7b\"host\":\"h\"\x7d", 0)]) =
      Pool.mk [Conn.mk "postgres" "host=h" (some 10) (some 600000000000) true]
        [("postgres\x7b\"host\":\"h\"\x7d", 0)] ∧
    ConnectionPool (fun _ _ => none) id
        (Pool.mk [Conn.mk "postgres" "host=h" (some 10) (some 600000000000) true]
          [("postgres\x7b\"host\":\"h\"\x7d", 0)])
        "postgres" (some [("host", Val.str "h")]) =
      (Pool.mk [Conn.mk "postgres" "host=h" (some 10) (some 600000000000) true]
        [("postgres\x7b\"host\":\"h\"\x7d", 0)], Except.ok 0) ∧
    isClosed (Pool.mk [Conn.mk "postgres" "host=h" (some 10) (some 600000000000) true]
        [("postgres\x7b\"host\":\"h\"\x7d", 0)]) 0 = true :=
  ⟨by rfl, by decide, by rfl, by decide⟩


end TapSQL
